import Mathlib

/-!
Shallow embedding of `allenact_plugins/gym_plugin/gym_models.py`.

The file defines two policy networks:
  * `MemorylessActorCritic` (the spec's VectorActorCritic): an MLP actor
    producing a Gaussian mean squashed by `tanh`, an MLP critic, and a fixed
    standard-deviation buffer.
  * `ContrastiveConvolutionalActorCritic` (the spec's ImageActorCritic): a
    shared convolutional encoder followed by MLP actor and critic heads.

The embedding represents `nn` modules syntactically (`NetLayer`) and gives
them an evaluation semantics parameterised by the numeric carrier `α` and by
the pointwise interpretations of `Tanh` and `ReLU` (instantiated with
`Real.tanh` where the claim needs tanh's range).  Tensors carry their shapes
as data and layer application performs the same shape checks the tensor
framework performs at run time, returning `none` where the framework raises.
-/

universe u

/-- `nn.Linear(inFeatures, outFeatures)` with its weight matrix and bias.
Weights are total functions; only indices below the bounds are used. -/
structure LinearLayer (α : Type u) where
  inFeatures : ℕ
  outFeatures : ℕ
  weight : ℕ → ℕ → α
  bias : ℕ → α

/-- `nn.Conv2d(inChannels, outChannels, (kernel,kernel), stride)` (square
kernel, no padding, no dilation, as used in the source). -/
structure Conv2dLayer (α : Type u) where
  inChannels : ℕ
  outChannels : ℕ
  kernel : ℕ
  stride : ℕ
  weight : ℕ → ℕ → ℕ → ℕ → α
  bias : ℕ → α

/-- The `nn` modules appearing in the source file. -/
inductive NetLayer (α : Type u) where
  | linear (l : LinearLayer α)
  | tanh
  | relu
  | conv2d (c : Conv2dLayer α)
  | flatten

/-- Spatial output size of a valid (unpadded) convolution or pooling:
`floor((n - k) / s) + 1`. -/
def convOutDim (n k s : ℕ) : ℕ := (n - k) / s + 1

theorem conv_idx_lt {n k s : ℕ} (hk : k ≤ n) {i d : ℕ}
    (hi : i < convOutDim n k s) (hd : d < k) : i * s + d < n := by
  have h1 : i ≤ (n - k) / s := Nat.lt_succ_iff.mp hi
  have h2 : i * s ≤ n - k :=
    le_trans (Nat.mul_le_mul_right s h1) (Nat.div_mul_le_self _ _)
  have h3 : i * s + d < (n - k) + k := add_lt_add_of_le_of_lt h2 hd
  rwa [Nat.sub_add_cancel hk] at h3

/-- A runtime tensor value as seen by one stage of the encoder pipeline:
either a rank-1 vector (post-`Flatten`) or a rank-3 channel-first image. -/
inductive Tensor (α : Type u) where
  | t1 (xs : List α)
  | t3 (c h w : ℕ) (data : Fin c → Fin h → Fin w → α)

/-- `nn.Linear` applied to a rank-1 input (the length check is done by the
caller): output `j` is `∑ i, W[j,i] * x[i] + b[j]`. -/
def linearApplyL [CommRing α] (l : LinearLayer α) (xs : List α) : List α :=
  (List.range l.outFeatures).map fun j =>
    (∑ i : Fin l.inFeatures, l.weight j i.val * xs.getD i.val 0) + l.bias j

/-- `nn.Conv2d` applied to one channel-first image.  The framework rejects
inputs whose channel count differs from the layer's or whose spatial extent
is smaller than the kernel; otherwise the output at `(co, i, j)` is the usual
cross-correlation.  (Stride positivity is enforced when the module is built;
both convolutions in the source use the literal strides 4 and 2.) -/
def conv2dApply [CommRing α] (cl : Conv2dLayer α) (c h w : ℕ)
    (x : Fin c → Fin h → Fin w → α) : Option (Tensor α) :=
  if hc : c = cl.inChannels ∧ cl.kernel ≤ h ∧ cl.kernel ≤ w then
    some (.t3 cl.outChannels (convOutDim h cl.kernel cl.stride)
      (convOutDim w cl.kernel cl.stride)
      (fun co i j =>
        (∑ ci : Fin cl.inChannels, ∑ di : Fin cl.kernel, ∑ dj : Fin cl.kernel,
          cl.weight co.val ci.val di.val dj.val *
            x (Fin.cast hc.1.symm ci)
              ⟨i.val * cl.stride + di.val, conv_idx_lt hc.2.1 i.isLt di.isLt⟩
              ⟨j.val * cl.stride + dj.val,
                conv_idx_lt hc.2.2 j.isLt dj.isLt⟩) + cl.bias co.val))
  else none

/-- Row-major flattening of a channel-first image, matching the memory order
`nn.Flatten` uses on a `(C, H, W)` block. -/
def flattenT3 (c h w : ℕ) (data : Fin c → Fin h → Fin w → α) : List α :=
  (List.finRange c).flatMap fun ci =>
    (List.finRange h).flatMap fun i => (List.finRange w).map fun j => data ci i j

/-- One module applied to one runtime tensor, with the framework's shape
checks; `tanhSem`/`reluSem` interpret the pointwise activations on `α`.
Combinations that the framework rejects (e.g. `Conv2d` on a rank-1 input, or
`Linear` on an input whose last dimension mismatches) yield `none`. -/
def NetLayer.apply [CommRing α] (tanhSem reluSem : α → α) :
    NetLayer α → Tensor α → Option (Tensor α)
  | .linear l, .t1 xs =>
      if xs.length = l.inFeatures then some (.t1 (linearApplyL l xs)) else none
  | .linear _, .t3 .. => none
  | .tanh, .t1 xs => some (.t1 (xs.map tanhSem))
  | .tanh, .t3 c h w d => some (.t3 c h w fun a b e => tanhSem (d a b e))
  | .relu, .t1 xs => some (.t1 (xs.map reluSem))
  | .relu, .t3 c h w d => some (.t3 c h w fun a b e => reluSem (d a b e))
  | .conv2d cl, .t3 c h w d => conv2dApply cl c h w d
  | .conv2d _, .t1 _ => none
  | .flatten, .t3 c h w d => some (.t1 (flattenT3 c h w d))
  | .flatten, .t1 xs => some (.t1 xs)

/-- `nn.Sequential`: layers applied in order, propagating failure. -/
def seqApply [CommRing α] (tanhSem reluSem : α → α) :
    List (NetLayer α) → Tensor α → Option (Tensor α)
  | [], x => some x
  | l :: rest, x => (l.apply tanhSem reluSem x).bind (seqApply tanhSem reluSem rest)

/-- `make_mlp_hidden(nl, *dims)`: for consecutive width pairs of `dims`,
a `Linear` followed by a fresh `nl()` instance.  `k` numbers the created
linear layers so each draws its own weights from the families `w`, `b`. -/
def make_mlp_hidden (nl : NetLayer α) (w : ℕ → ℕ → ℕ → α) (b : ℕ → ℕ → α) :
    ℕ → List ℕ → List (NetLayer α)
  | _, [] => []
  | _, [_] => []
  | k, d0 :: d1 :: rest =>
      .linear ⟨d0, d1, w k, b k⟩ :: nl :: make_mlp_hidden nl w b (k + 1) (d1 :: rest)

/-- A rank-3 tensor of shape `(b, t, s)` — sampler batch, time steps, feature
width — as consumed by the vector model, shape carried as data. -/
structure BatchedVec (α : Type u) where
  b : ℕ
  t : ℕ
  s : ℕ
  data : Fin b → Fin t → Fin s → α

/-- A rank-3 tensor of shape `(b, t, ·)` whose rows are lists, produced by the
image model's final `view(B, T, -1)`. -/
structure BatchedRows (α : Type u) where
  b : ℕ
  t : ℕ
  data : Fin b → Fin t → List α

/-- `nn.Linear` acting on the last dimension of a `(b, t, s)` tensor (the
shape check `s = inFeatures` already performed by the caller). -/
def linearApplyB [CommRing α] (l : LinearLayer α) {s : ℕ} (h : s = l.inFeatures)
    (v : Fin s → α) : Fin l.outFeatures → α :=
  fun j =>
    (∑ i : Fin l.inFeatures, l.weight j.val i.val * v (Fin.cast h.symm i)) + l.bias j.val

/-- `nn.Sequential` of `Linear`/`Tanh`/`ReLU` modules applied to a whole
`(b, t, s)` tensor: `Linear` checks the last dimension against its input
width (independently of the batch extents, as the framework does) and acts on
the last dimension; activations act pointwise.  `Conv2d` rejects rank-3 input
and `Flatten` would change the rank, neither occurs in the vector model's
nets, so both are mapped to failure. -/
def seqApplyBatched [CommRing α] (tanhSem reluSem : α → α) :
    List (NetLayer α) → BatchedVec α → Option (BatchedVec α)
  | [], x => some x
  | .linear l :: rest, x =>
      if h : x.s = l.inFeatures then
        seqApplyBatched tanhSem reluSem rest
          ⟨x.b, x.t, l.outFeatures, fun i j => linearApplyB l h (x.data i j)⟩
      else none
  | .tanh :: rest, x =>
      seqApplyBatched tanhSem reluSem rest
        ⟨x.b, x.t, x.s, fun i j k => tanhSem (x.data i j k)⟩
  | .relu :: rest, x =>
      seqApplyBatched tanhSem reluSem rest
        ⟨x.b, x.t, x.s, fun i j k => reluSem (x.data i j k)⟩
  | .conv2d _ :: _, _ => none
  | .flatten :: _, _ => none

/-- `gym.spaces.Box`: only its shape matters to the source code. -/
structure GymBox where
  shape : List ℕ

/-- `gym.spaces.Discrete`: a finite action set of size `n`. -/
structure GymDiscrete where
  n : ℕ

/-- The Gaussian distribution descriptor `GaussianDistr(loc, scale)` built by
the vector model: `loc` has shape `(b, t, D)`; `scale` is the `(1, 1, D)`
buffer, broadcast over batch and time positions. -/
structure GaussianDistr (α : Type u) where
  loc : BatchedVec α
  scale : List α

/-- The categorical distribution descriptor `CategoricalDistr(logits)`. -/
structure CategoricalDistr (α : Type u) where
  logits : BatchedRows α

/-- `ActorCriticOutput(distributions, values, extras)` for the vector model. -/
structure ActorCriticOutputV (α : Type u) where
  distributions : GaussianDistr α
  values : BatchedVec α
  extras : List (String × α)

/-- `ActorCriticOutput(distributions, values, extras)` for the image model. -/
structure ActorCriticOutputI (α : Type u) where
  distributions : CategoricalDistr α
  values : BatchedRows α
  extras : List (String × α)

/-- Parameter families for every `Linear` module `MemorylessActorCritic`
creates (the framework draws these at construction; the embedding takes them
as inputs).  `actorW k`/`actorB k` feed the `k`-th hidden linear of the
actor, `actorFinalW`/`actorFinalB` the hard-coded `nn.Linear(32, action_dim)`;
likewise for the critic. -/
structure MemorylessParams (α : Type u) where
  actorW : ℕ → ℕ → ℕ → α
  actorB : ℕ → ℕ → α
  actorFinalW : ℕ → ℕ → α
  actorFinalB : ℕ → α
  criticW : ℕ → ℕ → ℕ → α
  criticB : ℕ → ℕ → α
  criticFinalW : ℕ → ℕ → α
  criticFinalB : ℕ → α

/-- The state a constructed `MemorylessActorCritic` holds: the selector key,
the two module stacks, and the `action_std` buffer.  The buffer is registered
with `register_buffer(..., persistent=False)`, i.e. it is not a trainable
parameter: it lives outside the `Linear` weight families above. -/
structure MemorylessModel (α : Type u) where
  input_uuid : String
  actor : List (NetLayer α)
  critic : List (NetLayer α)
  action_std : List α

/-- Body of `MemorylessActorCritic.__init__` after its assertions: builds the
actor (`make_mlp_hidden` stack, then `nn.Linear(32, action_dim)` and
`nn.Tanh()`), the critic (same stack shape, then `nn.Linear(32, 1)`), and the
`action_std` buffer `torch.tensor([action_std] * action_dim).view(1, 1, -1)`
— `action_dim` copies of the constant, broadcastable over batch and time. -/
def mkMemorylessModel (input_uuid : String) (state_dim action_dim : ℕ)
    (action_std : α) (mlp_hidden_dims : List ℕ) (p : MemorylessParams α) :
    MemorylessModel α :=
  let dims := state_dim :: mlp_hidden_dims
  { input_uuid := input_uuid
    actor := make_mlp_hidden .tanh p.actorW p.actorB 0 dims ++
      [.linear ⟨32, action_dim, p.actorFinalW, p.actorFinalB⟩, .tanh]
    critic := make_mlp_hidden .tanh p.criticW p.criticB 0 dims ++
      [.linear ⟨32, 1, p.criticFinalW, p.criticFinalB⟩]
    action_std := List.replicate action_dim action_std }

/-- `MemorylessActorCritic.__init__`: looks up the configured key in the
observation space (a missing key raises `KeyError`), asserts that the
selected entry and the action space both have rank 1, then builds the model.
Any raised exception is `none`. -/
def memorylessInit (input_uuid : String) (action_space : GymBox)
    (observation_space : String → Option (List ℕ)) (action_std : α)
    (mlp_hidden_dims : List ℕ) (p : MemorylessParams α) :
    Option (MemorylessModel α) :=
  match observation_space input_uuid with
  | none => none
  | some obsShape =>
      if obsShape.length = 1 ∧ action_space.shape.length = 1 then
        some (mkMemorylessModel input_uuid (obsShape.headD 0)
          (action_space.shape.headD 0) action_std mlp_hidden_dims p)
      else none

/-- `MemorylessActorCritic.forward`: reads the selected observation (a
missing key raises), feeds it to the actor and to the critic, and returns
`ActorCriticOutput(GaussianDistr(loc=means, scale=self.action_std), values,
{})` together with a `None` memory token.  `memory`, `prev_actions` and
`masks` are accepted and ignored, as in the source. -/
def MemorylessModel.forward {M P K : Type} [CommRing α] (tanhSem reluSem : α → α)
    (m : MemorylessModel α) (observations : String → Option (BatchedVec α))
    (memory : M) (prev_actions : P) (masks : K) :
    Option (ActorCriticOutputV α × Option M) :=
  match observations m.input_uuid with
  | none => none
  | some obs =>
      match seqApplyBatched tanhSem reluSem m.actor obs,
            seqApplyBatched tanhSem reluSem m.critic obs with
      | some means, some values =>
          some (⟨⟨means, m.action_std⟩, values, []⟩, none)
      | _, _ => none

/-- A rank-5 channel-last observation tensor of shape `(b, t, h, w, c)`. -/
structure T5 (α : Type u) where
  b : ℕ
  t : ℕ
  h : ℕ
  w : ℕ
  c : ℕ
  data : Fin b → Fin t → Fin h → Fin w → Fin c → α

theorem fold_div_lt {b t n : ℕ} (hn : n < b * t) : n / t < b := by
  have ht : 0 < t := by
    rcases Nat.eq_zero_or_pos t with h0 | h0
    · subst h0; simp at hn
    · exact h0
  exact (Nat.div_lt_iff_lt_mul ht).2 hn

theorem fold_mod_lt {b t n : ℕ} (hn : n < b * t) : n % t < t := by
  have ht : 0 < t := by
    rcases Nat.eq_zero_or_pos t with h0 | h0
    · subst h0; simp at hn
    · exact h0
  exact Nat.mod_lt _ ht

theorem unfold_idx_lt {b t : ℕ} (i : Fin b) (j : Fin t) : i.val * t + j.val < b * t := by
  have h1 : i.val * t + j.val < (i.val + 1) * t := by
    rw [Nat.succ_mul]; exact Nat.add_lt_add_left j.isLt _
  exact lt_of_lt_of_le h1 (Nat.mul_le_mul_right t (Nat.succ_le_of_lt i.isLt))

/-- The channel-first image at folded index `n` of
`observations[uuid].float().view(b*t, h, w, c).permute(0, 3, 1, 2)`:
row-major `view` sends flat index `n` to batch cell `(n / t, n % t)`, the
`permute` moves the channel axis first, and `float()` applies the framework's
numeric cast (`floatCast`, the identity on an exact carrier) pointwise. -/
def T5.imageAt (o : T5 α) (floatCast : α → α) (n : Fin (o.b * o.t)) :
    Fin o.c → Fin o.h → Fin o.w → α :=
  fun ch i j =>
    floatCast (o.data ⟨n.val / o.t, fold_div_lt n.isLt⟩
      ⟨n.val % o.t, fold_mod_lt n.isLt⟩ i j ch)

/-- Parameter families for the modules `ContrastiveConvolutionalActorCritic`
creates: the two convolutions and the linear projection of the encoder, and
the two MLP heads (hidden families indexed by creation order, plus the final
hard-coded `nn.Linear(32, ·)` of each head). -/
structure ContrastiveParams (α : Type u) where
  conv1W : ℕ → ℕ → ℕ → ℕ → α
  conv1B : ℕ → α
  conv2W : ℕ → ℕ → ℕ → ℕ → α
  conv2B : ℕ → α
  encLinW : ℕ → ℕ → α
  encLinB : ℕ → α
  actorW : ℕ → ℕ → ℕ → α
  actorB : ℕ → ℕ → α
  actorFinalW : ℕ → ℕ → α
  actorFinalB : ℕ → α
  criticW : ℕ → ℕ → ℕ → α
  criticB : ℕ → ℕ → α
  criticFinalW : ℕ → ℕ → α
  criticFinalB : ℕ → α

/-- The state a constructed `ContrastiveConvolutionalActorCritic` holds. -/
structure ContrastiveModel (α : Type u) where
  input_uuid : String
  encoder : List (NetLayer α)
  actor : List (NetLayer α)
  critic : List (NetLayer α)

/-- Body of `ContrastiveConvolutionalActorCritic.__init__`: the shared
encoder `Conv2d(3, 16, (8,8), stride=4) → ReLU → Conv2d(16, 32, (4,4),
stride=2) → ReLU → Flatten → Linear(2592, 2048) → ReLU`, and the two heads
over the 2048-wide embedding (`state_dim = 2048`), the actor ending in
`nn.Linear(32, action_space.n)` with no activation, the critic in
`nn.Linear(32, 1)`. -/
def mkContrastiveModel (input_uuid : String) (action_n : ℕ)
    (mlp_hidden_dims : List ℕ) (p : ContrastiveParams α) : ContrastiveModel α :=
  let state_dim := 2048
  let dims := state_dim :: mlp_hidden_dims
  { input_uuid := input_uuid
    encoder := [.conv2d ⟨3, 16, 8, 4, p.conv1W, p.conv1B⟩, .relu,
      .conv2d ⟨16, 32, 4, 2, p.conv2W, p.conv2B⟩, .relu, .flatten,
      .linear ⟨2592, 2048, p.encLinW, p.encLinB⟩, .relu]
    actor := make_mlp_hidden .tanh p.actorW p.actorB 0 dims ++
      [.linear ⟨32, action_n, p.actorFinalW, p.actorFinalB⟩]
    critic := make_mlp_hidden .tanh p.criticW p.criticB 0 dims ++
      [.linear ⟨32, 1, p.criticFinalW, p.criticFinalB⟩] }

/-- `ContrastiveConvolutionalActorCritic.__init__`: stores the key and the
spaces and builds the modules.  It contains no assertion and never reads an
entry of `observation_space`, so construction always succeeds. -/
def contrastiveInit (input_uuid : String) (action_space : GymDiscrete)
    (observation_space : String → Option (List ℕ)) (mlp_hidden_dims : List ℕ)
    (p : ContrastiveParams α) : Option (ContrastiveModel α) :=
  some (mkContrastiveModel input_uuid action_space.n mlp_hidden_dims p)

/-- The per-image slice of `ContrastiveConvolutionalActorCritic.forward`: the
encoder on the folded, permuted, cast image `n`, then the actor and the
critic on the shared embedding, giving (logits row, value row).  The heads'
outputs are rank-1 per image (their `Linear` modules reject anything else). -/
def contrastivePerImage [CommRing α] (tanhSem reluSem floatCast : α → α)
    (m : ContrastiveModel α) (o : T5 α) (n : Fin (o.b * o.t)) :
    Option (List α × List α) :=
  (seqApply tanhSem reluSem m.encoder (.t3 o.c o.h o.w (o.imageAt floatCast n))).bind
    fun emb =>
      (seqApply tanhSem reluSem m.actor emb).bind fun la =>
        (seqApply tanhSem reluSem m.critic emb).bind fun lc =>
          match la, lc with
          | .t1 xs, .t1 ys => some (xs, ys)
          | _, _ => none

/-- `ContrastiveConvolutionalActorCritic.forward`: reads the selected
observation, folds batch and time together (`view(b*t, h, w, c)`), permutes
to channel-first, runs encoder and heads per folded index, and unfolds the
head outputs back to `(b, t, ·)` rows (`view(b, t, -1)`; flat index
`i * t + j` holds cell `(i, j)`).  It succeeds iff every per-image slice
does; the degenerate `b * t = 0` batch, which the real framework rejects
only at the final `view(…, -1)` inference, is idealised as success.
Returns `ActorCriticOutput(CategoricalDistr(logits), values, {})` and a
`None` memory token; `memory`, `prev_actions`, `masks` are ignored. -/
def ContrastiveModel.forward {M P K : Type} [CommRing α]
    (tanhSem reluSem floatCast : α → α) (m : ContrastiveModel α)
    (observations : String → Option (T5 α)) (memory : M) (prev_actions : P)
    (masks : K) : Option (ActorCriticOutputI α × Option M) :=
  match observations m.input_uuid with
  | none => none
  | some o =>
      if h : ∀ n : Fin (o.b * o.t),
          (contrastivePerImage tanhSem reluSem floatCast m o n).isSome then
        some (⟨⟨⟨o.b, o.t, fun i j =>
            ((contrastivePerImage tanhSem reluSem floatCast m o
              ⟨i.val * o.t + j.val, unfold_idx_lt i j⟩).map Prod.fst).getD []⟩⟩,
          ⟨o.b, o.t, fun i j =>
            ((contrastivePerImage tanhSem reluSem floatCast m o
              ⟨i.val * o.t + j.val, unfold_idx_lt i j⟩).map Prod.snd).getD []⟩,
          []⟩, none)
      else none

/-- The spec's description of the hidden part of both networks: a stack of
`(linear, hyperbolic-tangent-activation)` blocks over consecutive width
pairs of the dims list (written from the spec's words, for comparison with
the `make_mlp_hidden` loop the code uses). -/
def specTanhStack (w : ℕ → ℕ → ℕ → α) (b : ℕ → ℕ → α) :
    ℕ → List ℕ → List (NetLayer α)
  | _, [] => []
  | _, [_] => []
  | k, d0 :: d1 :: rest =>
      [.linear ⟨d0, d1, w k, b k⟩, .tanh] ++ specTanhStack w b (k + 1) (d1 :: rest)

/-- Concrete all-zero parameter families over `ℚ`, for witnesses. -/
def qMemParams : MemorylessParams ℚ :=
  ⟨fun _ _ _ => 0, fun _ _ => 0, fun _ _ => 0, fun _ => 0,
   fun _ _ _ => 0, fun _ _ => 0, fun _ _ => 0, fun _ => 0⟩

/-- Concrete all-zero parameter families over `ℚ` for the image model. -/
def qContParams : ContrastiveParams ℚ :=
  ⟨fun _ _ _ _ => 0, fun _ => 0, fun _ _ _ _ => 0, fun _ => 0,
   fun _ _ => 0, fun _ => 0, fun _ _ _ => 0, fun _ _ => 0,
   fun _ _ => 0, fun _ => 0, fun _ _ _ => 0, fun _ _ => 0,
   fun _ _ => 0, fun _ => 0⟩

/-- A concrete observation map holding one 1×1×2 vector observation. -/
def qObsMapV : String → Option (BatchedVec ℚ) :=
  fun u => if u = "g" then some ⟨1, 1, 2, fun _ _ _ => 1⟩ else none

/-- A concrete vector model: S = 2, D = 3, hidden widths `[32]`. -/
def qModelV : MemorylessModel ℚ := mkMemorylessModel "g" 2 3 0 [32] qMemParams

/-- A concrete image model with 4 discrete actions and default hidden dims. -/
def qModelC : ContrastiveModel ℚ := mkContrastiveModel "g" 4 [64, 32] qContParams

/-! ### General lemmas about the evaluators -/

theorem seqApply_append [CommRing α] (tanhSem reluSem : α → α)
    (L1 L2 : List (NetLayer α)) (x : Tensor α) :
    seqApply tanhSem reluSem (L1 ++ L2) x =
      (seqApply tanhSem reluSem L1 x).bind (seqApply tanhSem reluSem L2) := by
  induction L1 generalizing x with
  | nil => simp [seqApply]
  | cons l rest ih =>
      simp only [List.cons_append, seqApply, Option.bind_assoc]
      cases l.apply tanhSem reluSem x with
      | none => simp
      | some y => simp [ih]

theorem seqApplyBatched_append [CommRing α] (tanhSem reluSem : α → α)
    (L1 L2 : List (NetLayer α)) (x : BatchedVec α) :
    seqApplyBatched tanhSem reluSem (L1 ++ L2) x =
      (seqApplyBatched tanhSem reluSem L1 x).bind (seqApplyBatched tanhSem reluSem L2) := by
  induction L1 generalizing x with
  | nil => simp [seqApplyBatched]
  | cons l rest ih =>
      cases l with
      | linear lin =>
          simp only [List.cons_append, seqApplyBatched]
          by_cases h : x.s = lin.inFeatures
          · simp [h, ih]
          · simp [h]
      | tanh => simp only [List.cons_append, seqApplyBatched]; exact ih _
      | relu => simp only [List.cons_append, seqApplyBatched]; exact ih _
      | conv2d c => simp [List.cons_append, seqApplyBatched]
      | flatten => simp [List.cons_append, seqApplyBatched]

theorem seqApplyBatched_tanh_last [CommRing α] {tanhSem reluSem : α → α}
    {L : List (NetLayer α)} {x y : BatchedVec α}
    (h : seqApplyBatched tanhSem reluSem (L ++ [.tanh]) x = some y) :
    ∃ z : BatchedVec α, seqApplyBatched tanhSem reluSem L x = some z ∧
      y = ⟨z.b, z.t, z.s, fun i j k => tanhSem (z.data i j k)⟩ := by
  rw [seqApplyBatched_append] at h
  cases hz : seqApplyBatched tanhSem reluSem L x with
  | none => rw [hz] at h; simp at h
  | some z =>
      rw [hz] at h
      simp only [Option.some_bind, seqApplyBatched] at h
      exact ⟨z, rfl, (Option.some_injective _ h).symm⟩

/-- Running `make_mlp_hidden` over a dims chain on a batched tensor whose last
dimension matches the first width succeeds, preserves the batch extents, and
ends with the last width of the chain. -/
theorem seqApplyBatched_mlp [CommRing α] (tanhSem reluSem : α → α)
    (w : ℕ → ℕ → ℕ → α) (bb : ℕ → ℕ → α) (ds : List ℕ) :
    ∀ (k d0 : ℕ) (x : BatchedVec α), x.s = d0 →
    ∃ y : BatchedVec α,
      seqApplyBatched tanhSem reluSem (make_mlp_hidden .tanh w bb k (d0 :: ds)) x = some y ∧
      y.b = x.b ∧ y.t = x.t ∧ y.s = ds.getLastD d0 := by
  induction ds with
  | nil =>
      intro k d0 x hx
      exact ⟨x, by simp [make_mlp_hidden, seqApplyBatched], rfl, rfl, by simp [hx]⟩
  | cons d1 rest ih =>
      intro k d0 x hx
      obtain ⟨y, hy, hb, ht, hs⟩ := ih (k + 1) d1
        ⟨x.b, x.t, d1, fun i j kk =>
          tanhSem (linearApplyB ⟨d0, d1, w k, bb k⟩ (hx.trans rfl) (x.data i j) kk)⟩ rfl
      refine ⟨y, ?_, hb, ht, by rw [List.getLastD_cons]; exact hs⟩
      simp only [make_mlp_hidden, seqApplyBatched, hx]
      simp only [dif_pos]
      exact hy

theorem seqApplyBatched_linear_fail [CommRing α] {tanhSem reluSem : α → α}
    {l : LinearLayer α} {rest : List (NetLayer α)} {x : BatchedVec α}
    (h : x.s ≠ l.inFeatures) :
    seqApplyBatched tanhSem reluSem (.linear l :: rest) x = none := by
  simp [seqApplyBatched, h]

theorem linearApplyL_length [CommRing α] (l : LinearLayer α) (xs : List α) :
    (linearApplyL l xs).length = l.outFeatures := by
  simp [linearApplyL]

theorem sum_map_eq_const {β : Type u} (l : List β) (f : β → ℕ) (k : ℕ)
    (h : ∀ x ∈ l, f x = k) : (l.map f).sum = l.length * k := by
  induction l with
  | nil => simp
  | cons a l ih =>
      have ha : f a = k := h a (List.mem_cons_self a l)
      have hrest := ih fun x hx => h x (List.mem_cons_of_mem a hx)
      simp only [List.map_cons, List.sum_cons, ha, hrest, List.length_cons]
      ring

theorem flattenT3_length (c h w : ℕ) (data : Fin c → Fin h → Fin w → α) :
    (flattenT3 c h w data).length = c * (h * w) := by
  unfold flattenT3
  rw [List.length_flatMap]
  rw [sum_map_eq_const _ _ (h * w) ?_, List.length_finRange]
  intro ci _
  simp only [Function.comp_apply]
  rw [List.length_flatMap]
  rw [sum_map_eq_const _ _ w ?_, List.length_finRange]
  intro i _
  simp

/-- Running `make_mlp_hidden` over a dims chain on a rank-1 tensor whose
length matches the first width succeeds and ends with the last width. -/
theorem seqApply_mlp_t1 [CommRing α] (tanhSem reluSem : α → α)
    (w : ℕ → ℕ → ℕ → α) (bb : ℕ → ℕ → α) (ds : List ℕ) :
    ∀ (k d0 : ℕ) (xs : List α), xs.length = d0 →
    ∃ ys : List α,
      seqApply tanhSem reluSem (make_mlp_hidden .tanh w bb k (d0 :: ds)) (.t1 xs) =
        some (.t1 ys) ∧ ys.length = ds.getLastD d0 := by
  induction ds with
  | nil =>
      intro k d0 xs hx
      exact ⟨xs, by simp [make_mlp_hidden, seqApply], by simp [hx]⟩
  | cons d1 rest ih =>
      intro k d0 xs hx
      obtain ⟨ys, hy, hlen⟩ := ih (k + 1) d1
        ((linearApplyL ⟨d0, d1, w k, bb k⟩ xs).map tanhSem)
        (by simp [linearApplyL_length])
      refine ⟨ys, ?_, by rw [List.getLastD_cons]; exact hlen⟩
      simp only [make_mlp_hidden, seqApply, NetLayer.apply, hx, if_pos,
        Option.some_bind]
      exact hy

/-- A `Sequential` ending in a `Linear` produces, on success, a rank-1 output
whose length is that layer's output width. -/
theorem seqApply_linear_last [CommRing α] {tanhSem reluSem : α → α}
    {L : List (NetLayer α)} {l : LinearLayer α} {x : Tensor α} {r : Tensor α}
    (h : seqApply tanhSem reluSem (L ++ [.linear l]) x = some r) :
    ∃ ys : List α, r = .t1 ys ∧ ys.length = l.outFeatures := by
  rw [seqApply_append] at h
  cases hm : seqApply tanhSem reluSem L x with
  | none => rw [hm] at h; simp at h
  | some mid =>
      rw [hm] at h
      cases mid with
      | t1 xs =>
          simp only [Option.some_bind, seqApply, NetLayer.apply] at h
          by_cases hl : xs.length = l.inFeatures
          · rw [if_pos hl] at h
            simp only [Option.some_bind, seqApply] at h
            exact ⟨linearApplyL l xs, (Option.some_injective _ h).symm,
              linearApplyL_length l xs⟩
          · rw [if_neg hl] at h
            simp at h
      | t3 c hh ww d =>
          simp only [Option.some_bind, seqApply, NetLayer.apply] at h
          simp at h

theorem seqApply_linear_fail_t1 [CommRing α] {tanhSem reluSem : α → α}
    {l : LinearLayer α} {rest : List (NetLayer α)} {xs : List α}
    (h : xs.length ≠ l.inFeatures) :
    seqApply tanhSem reluSem (.linear l :: rest) (.t1 xs) = none := by
  simp [seqApply, NetLayer.apply, h]

/-- `Real.tanh` lands in the closed interval `[-1, 1]`. -/
theorem real_tanh_mem_Icc (x : ℝ) : Real.tanh x ∈ Set.Icc (-1 : ℝ) 1 := by
  have hc : 0 < Real.cosh x := Real.cosh_pos x
  have habs : |Real.sinh x| < Real.cosh x := by
    rw [abs_lt]
    constructor
    · have hneg : Real.sinh (-x) < Real.cosh (-x) := Real.sinh_lt_cosh (-x)
      rw [Real.sinh_neg, Real.cosh_neg] at hneg
      linarith
    · exact Real.sinh_lt_cosh x
  have hdiv : |Real.tanh x| ≤ 1 := by
    rw [Real.tanh_eq_sinh_div_cosh, abs_div, abs_of_pos hc]
    exact le_of_lt ((div_lt_one hc).2 habs)
  exact Set.mem_Icc.2 (abs_le.1 hdiv)

/-! ### Unfolding lemmas for the two forward passes -/

theorem memForward_some_elim {M P K : Type} [CommRing α] {tanhSem reluSem : α → α}
    {m : MemorylessModel α} {obsMap : String → Option (BatchedVec α)}
    {mem : M} {pa : P} {mk : K} {out : ActorCriticOutputV α} {mm : Option M}
    (h : m.forward tanhSem reluSem obsMap mem pa mk = some (out, mm)) :
    ∃ obs means values, obsMap m.input_uuid = some obs ∧
      seqApplyBatched tanhSem reluSem m.actor obs = some means ∧
      seqApplyBatched tanhSem reluSem m.critic obs = some values ∧
      out = ⟨⟨means, m.action_std⟩, values, []⟩ ∧ mm = none := by
  unfold MemorylessModel.forward at h
  cases ho : obsMap m.input_uuid with
  | none => rw [ho] at h; simp at h
  | some obs =>
      rw [ho] at h
      dsimp only at h
      cases ha : seqApplyBatched tanhSem reluSem m.actor obs with
      | none => rw [ha] at h; simp at h
      | some means =>
          cases hc : seqApplyBatched tanhSem reluSem m.critic obs with
          | none => rw [ha, hc] at h; simp at h
          | some values =>
              rw [ha, hc] at h
              simp only [Option.some.injEq, Prod.mk.injEq] at h
              exact ⟨obs, means, values, rfl, ha, hc, h.1.symm, h.2.symm⟩

theorem memForward_some_intro {M P K : Type} [CommRing α] {tanhSem reluSem : α → α}
    {m : MemorylessModel α} {obsMap : String → Option (BatchedVec α)}
    {mem : M} {pa : P} {mk : K} {obs means values}
    (ho : obsMap m.input_uuid = some obs)
    (ha : seqApplyBatched tanhSem reluSem m.actor obs = some means)
    (hc : seqApplyBatched tanhSem reluSem m.critic obs = some values) :
    m.forward tanhSem reluSem obsMap mem pa mk =
      some (⟨⟨means, m.action_std⟩, values, []⟩, none) := by
  unfold MemorylessModel.forward
  rw [ho]
  dsimp only
  rw [ha, hc]

theorem contrastivePerImage_some_elim [CommRing α] {tanhSem reluSem floatCast : α → α}
    {m : ContrastiveModel α} {o : T5 α} {n : Fin (o.b * o.t)} {xs ys : List α}
    (h : contrastivePerImage tanhSem reluSem floatCast m o n = some (xs, ys)) :
    ∃ emb, seqApply tanhSem reluSem m.encoder
        (.t3 o.c o.h o.w (o.imageAt floatCast n)) = some emb ∧
      seqApply tanhSem reluSem m.actor emb = some (.t1 xs) ∧
      seqApply tanhSem reluSem m.critic emb = some (.t1 ys) := by
  unfold contrastivePerImage at h
  cases he : seqApply tanhSem reluSem m.encoder
      (.t3 o.c o.h o.w (o.imageAt floatCast n)) with
  | none => rw [he] at h; simp at h
  | some emb =>
      rw [he] at h
      simp only [Option.some_bind] at h
      cases ha : seqApply tanhSem reluSem m.actor emb with
      | none => rw [ha] at h; simp at h
      | some la =>
          rw [ha] at h
          simp only [Option.some_bind] at h
          cases hc : seqApply tanhSem reluSem m.critic emb with
          | none => rw [hc] at h; simp at h
          | some lc =>
              rw [hc] at h
              simp only [Option.some_bind] at h
              cases la with
              | t1 axs =>
                  cases lc with
                  | t1 cxs =>
                      simp only [Option.some.injEq, Prod.mk.injEq] at h
                      exact ⟨emb, rfl, h.1 ▸ ha, h.2 ▸ hc⟩
                  | t3 _ _ _ _ => simp at h
              | t3 _ _ _ _ => cases lc <;> simp at h

theorem contForward_some_elim {M P K : Type} [CommRing α]
    {tanhSem reluSem floatCast : α → α} {m : ContrastiveModel α}
    {obsMap : String → Option (T5 α)} {mem : M} {pa : P} {mk : K}
    {out : ActorCriticOutputI α} {mm : Option M}
    (h : m.forward tanhSem reluSem floatCast obsMap mem pa mk = some (out, mm)) :
    ∃ o, obsMap m.input_uuid = some o ∧
      (∀ n : Fin (o.b * o.t),
        (contrastivePerImage tanhSem reluSem floatCast m o n).isSome) ∧
      out = ⟨⟨⟨o.b, o.t, fun i j =>
          ((contrastivePerImage tanhSem reluSem floatCast m o
            ⟨i.val * o.t + j.val, unfold_idx_lt i j⟩).map Prod.fst).getD []⟩⟩,
        ⟨o.b, o.t, fun i j =>
          ((contrastivePerImage tanhSem reluSem floatCast m o
            ⟨i.val * o.t + j.val, unfold_idx_lt i j⟩).map Prod.snd).getD []⟩,
        []⟩ ∧ mm = none := by
  unfold ContrastiveModel.forward at h
  cases ho : obsMap m.input_uuid with
  | none => rw [ho] at h; simp at h
  | some o =>
      rw [ho] at h
      dsimp only at h
      by_cases hall : ∀ n : Fin (o.b * o.t),
          (contrastivePerImage tanhSem reluSem floatCast m o n).isSome
      · rw [dif_pos hall] at h
        simp only [Option.some.injEq, Prod.mk.injEq] at h
        exact ⟨o, rfl, hall, h.1.symm, h.2.symm⟩
      · rw [dif_neg hall] at h
        simp at h

/-! ### Claim theorems -/

theorem make_mlp_hidden_eq_specTanhStack (w : ℕ → ℕ → ℕ → α) (b : ℕ → ℕ → α) :
    ∀ (k : ℕ) (dims : List ℕ),
      make_mlp_hidden .tanh w b k dims = specTanhStack w b k dims
  | _, [] => rfl
  | _, [_] => rfl
  | k, d0 :: d1 :: rest => by
      simp only [make_mlp_hidden, specTanhStack, List.cons_append, List.nil_append]
      rw [make_mlp_hidden_eq_specTanhStack w b (k + 1) (d1 :: rest)]

/-- C4: for every construction of `MemorylessActorCritic` with state
dimension `S`, action dimension `D` and hidden widths `hs`, the actor is
exactly the `(linear, tanh)` stack over the widths `S :: hs` followed by a
final linear layer (with the hard-coded input width 32) to `D` outputs and a
tanh squashing; the critic is the same hidden stack shape followed by a
final linear layer to one output; and the two networks share no parameters:
the actor is unchanged when all critic parameter families are replaced, and
vice versa. -/
theorem memoryless_architecture [CommRing α] (uuid : String) (S D : ℕ)
    (std : α) (hs : List ℕ) (p q : MemorylessParams α) :
    (mkMemorylessModel uuid S D std hs p).actor =
        specTanhStack p.actorW p.actorB 0 (S :: hs) ++
          [.linear ⟨32, D, p.actorFinalW, p.actorFinalB⟩, .tanh] ∧
    (mkMemorylessModel uuid S D std hs p).critic =
        specTanhStack p.criticW p.criticB 0 (S :: hs) ++
          [.linear ⟨32, 1, p.criticFinalW, p.criticFinalB⟩] ∧
    (mkMemorylessModel uuid S D std hs
        { p with criticW := q.criticW, criticB := q.criticB,
                 criticFinalW := q.criticFinalW, criticFinalB := q.criticFinalB }).actor =
      (mkMemorylessModel uuid S D std hs p).actor ∧
    (mkMemorylessModel uuid S D std hs
        { p with actorW := q.actorW, actorB := q.actorB,
                 actorFinalW := q.actorFinalW, actorFinalB := q.actorFinalB }).critic =
      (mkMemorylessModel uuid S D std hs p).critic := by
  refine ⟨?_, ?_, rfl, rfl⟩
  · simp only [mkMemorylessModel, make_mlp_hidden_eq_specTanhStack]
  · simp only [mkMemorylessModel, make_mlp_hidden_eq_specTanhStack]

/-- C5: the shared encoder built by `ContrastiveConvolutionalActorCritic` is
exactly `Conv2d(3→16, kernel 8, stride 4), ReLU, Conv2d(16→32, kernel 4,
stride 2), ReLU, Flatten, Linear(2592→2048), ReLU`. -/
theorem contrastive_encoder_architecture [CommRing α] (uuid : String)
    (action_n : ℕ) (hs : List ℕ) (p : ContrastiveParams α) :
    (mkContrastiveModel uuid action_n hs p).encoder =
      [.conv2d ⟨3, 16, 8, 4, p.conv1W, p.conv1B⟩, .relu,
       .conv2d ⟨16, 32, 4, 2, p.conv2W, p.conv2B⟩, .relu, .flatten,
       .linear ⟨2592, 2048, p.encLinW, p.encLinB⟩, .relu] := rfl

/-- C3: the standard deviation of the Gaussian descriptor returned by every
successful forward call of `MemorylessActorCritic` is the unchanged
construction-time buffer `[action_std] * action_dim` (viewed `(1, 1, -1)`,
hence broadcast identically over every batch and time position): every
entry equals the configured constant, and the returned scale does not depend
on the trainable parameter families `p`, on the observation, or on the
ignored inputs — as a non-persistent buffer it sits outside the trainable
parameters. -/
theorem memoryless_action_std {M P K : Type} [CommRing α]
    (tanhSem reluSem : α → α) (uuid : String) (S D : ℕ) (std : α)
    (hs : List ℕ) (p : MemorylessParams α)
    (obsMap : String → Option (BatchedVec α)) (mem : M) (pa : P) (mk : K) :
    (mkMemorylessModel uuid S D std hs p).action_std = List.replicate D std ∧
    (∀ x ∈ (mkMemorylessModel uuid S D std hs p).action_std, x = std) ∧
    ((mkMemorylessModel uuid S D std hs p).forward tanhSem reluSem obsMap
        mem pa mk).map (fun r => r.1.distributions.scale) =
      ((mkMemorylessModel uuid S D std hs p).forward tanhSem reluSem obsMap
        mem pa mk).map (fun _ => List.replicate D std) := by
  refine ⟨rfl, fun x hx => List.eq_of_mem_replicate hx, ?_⟩
  cases hf : (mkMemorylessModel uuid S D std hs p).forward tanhSem reluSem
      obsMap mem pa mk with
  | none => simp
  | some r =>
      have hf2 : (mkMemorylessModel uuid S D std hs p).forward tanhSem reluSem
          obsMap mem pa mk = some (r.1, r.2) := by rw [hf]
      obtain ⟨obs, means, values, ho, ha, hc, hout, hmm⟩ := memForward_some_elim hf2
      simp only [Option.map_some']
      rw [hout]
      rfl

/-- C7: on every forward call of either model, whatever the observation,
memory, previous-action and mask arguments, any returned result carries a
`None` memory token and an empty auxiliary-output map. -/
theorem forward_memory_none_extras_empty {M P K M2 P2 K2 : Type} [CommRing α]
    (tanhSem reluSem floatCast : α → α) (m : MemorylessModel α)
    (cm : ContrastiveModel α) (obsMap : String → Option (BatchedVec α))
    (obsMapI : String → Option (T5 α)) (mem : M) (pa : P) (mk : K)
    (mem2 : M2) (pa2 : P2) (mk2 : K2) :
    (m.forward tanhSem reluSem obsMap mem pa mk).map
        (fun r => (r.1.extras, r.2)) =
      (m.forward tanhSem reluSem obsMap mem pa mk).map (fun _ => ([], none)) ∧
    (cm.forward tanhSem reluSem floatCast obsMapI mem2 pa2 mk2).map
        (fun r => (r.1.extras, r.2)) =
      (cm.forward tanhSem reluSem floatCast obsMapI mem2 pa2 mk2).map
        (fun _ => ([], none)) := by
  constructor
  · cases hf : m.forward tanhSem reluSem obsMap mem pa mk with
    | none => simp
    | some r =>
        have hf2 : m.forward tanhSem reluSem obsMap mem pa mk =
            some (r.1, r.2) := by rw [hf]
        obtain ⟨obs, means, values, ho, ha, hc, hout, hmm⟩ := memForward_some_elim hf2
        simp only [Option.map_some']
        rw [hout, hmm]
  · cases hf : cm.forward tanhSem reluSem floatCast obsMapI mem2 pa2 mk2 with
    | none => simp
    | some r =>
        have hf2 : cm.forward tanhSem reluSem floatCast obsMapI mem2 pa2 mk2 =
            some (r.1, r.2) := by rw [hf]
        obtain ⟨o, ho, hall, hout, hmm⟩ := contForward_some_elim hf2
        simp only [Option.map_some']
        rw [hout, hmm]

/-- C8: the forward pass of each model is deterministic — it is a pure
function of the stored modules and the inputs, so two invocations with equal
models and equal inputs return equal outputs (distribution parameters,
values, auxiliary map and memory token alike); no stochastic layer exists. -/
theorem forward_deterministic {M P K M2 P2 K2 : Type} [CommRing α]
    (tanhSem reluSem floatCast : α → α)
    (m m' : MemorylessModel α) (obsMap obsMap' : String → Option (BatchedVec α))
    (mem mem' : M) (pa pa' : P) (mk mk' : K)
    (cm cm' : ContrastiveModel α) (obsMapI obsMapI' : String → Option (T5 α))
    (mem2 mem2' : M2) (pa2 pa2' : P2) (mk2 mk2' : K2) :
    (m = m' → obsMap = obsMap' → mem = mem' → pa = pa' → mk = mk' →
      m.forward tanhSem reluSem obsMap mem pa mk =
        m'.forward tanhSem reluSem obsMap' mem' pa' mk') ∧
    (cm = cm' → obsMapI = obsMapI' → mem2 = mem2' → pa2 = pa2' → mk2 = mk2' →
      cm.forward tanhSem reluSem floatCast obsMapI mem2 pa2 mk2 =
        cm'.forward tanhSem reluSem floatCast obsMapI' mem2' pa2' mk2') := by
  constructor
  · intro h1 h2 h3 h4 h5; subst h1; subst h2; subst h3; subst h4; subst h5; rfl
  · intro h1 h2 h3 h4 h5; subst h1; subst h2; subst h3; subst h4; subst h5; rfl

/-- Witness for C8 at concrete rational inputs: both hypothesis groups hold
by `rfl` and the determinism theorem applies to them. -/
theorem forward_deterministic_witness :
    MemorylessModel.forward (fun x => x) (fun x => x) qModelV qObsMapV () () () =
      MemorylessModel.forward (fun x => x) (fun x => x) qModelV qObsMapV () () () ∧
    ContrastiveModel.forward (fun x => x) (fun x => x) (fun x => x) qModelC
        (fun _ => none) () () () =
      ContrastiveModel.forward (fun x => x) (fun x => x) (fun x => x) qModelC
        (fun _ => none) () () () := by
  have h := forward_deterministic (fun x => x) (fun x => x) (fun x => x)
    qModelV qModelV qObsMapV qObsMapV () () () () () ()
    qModelC qModelC (fun _ => none) (fun _ => none) () () () () () ()
  exact ⟨h.1 rfl rfl rfl rfl rfl, h.2 rfl rfl rfl rfl rfl⟩

/-- C6 counterexample: constructing `ContrastiveConvolutionalActorCritic`
with an observation map that does not contain the configured key succeeds —
its `__init__` never reads an entry of the observation space and contains no
assertion — refuting the claim that for both models every such misconfigured
construction fails at construction time. -/
theorem contrastive_init_missing_key_succeeds :
    (contrastiveInit "gym_image" ⟨4⟩ (fun _ => none) [64, 32] qContParams).isSome = true :=
  rfl

/-- C6 (amended): `MemorylessActorCritic` fails construction exactly when the
configured key is missing from the observation space (`KeyError`), the
selected entry is not rank 1, or the action space is not rank 1 — in
particular a 2-D observation entry fails — while
`ContrastiveConvolutionalActorCritic` performs no construction-time
validation at all: it succeeds for every observation space, including one
missing the key. -/
theorem init_validation [CommRing α] (uuid uuid2 : String) (box : GymBox)
    (disc : GymDiscrete) (obsSpace obsSpace2 : String → Option (List ℕ))
    (std : α) (hs hs2 : List ℕ) (p : MemorylessParams α)
    (q : ContrastiveParams α) :
    ((memorylessInit uuid box obsSpace std hs p).isSome ↔
      (∃ sh, obsSpace uuid = some sh ∧ sh.length = 1) ∧
        box.shape.length = 1) ∧
    (contrastiveInit uuid2 disc obsSpace2 hs2 q).isSome = true := by
  refine ⟨?_, rfl⟩
  unfold memorylessInit
  cases ho : obsSpace uuid with
  | none => simp
  | some sh =>
      dsimp only
      by_cases hlen : sh.length = 1 ∧ box.shape.length = 1
      · simp [hlen]
      · rw [if_neg hlen]
        simp only [Option.isSome_none, Bool.false_eq_true, false_iff]
        intro hcon
        obtain ⟨⟨sh', hsh', hlen'⟩, hbox⟩ := hcon
        rw [Option.some_inj] at hsh'
        subst hsh'
        exact hlen ⟨hlen', hbox⟩

/-- C1: for every construction of `MemorylessActorCritic` (any state and
action dimensions, hidden widths, parameters) and every forward call that
returns, each component of the Gaussian mean (the actor output, squashed by
the trailing `nn.Tanh()`) lies in the closed interval `[-1, 1]`. -/
theorem memoryless_actor_output_bounded {M P K : Type} (reluSem : ℝ → ℝ)
    (uuid : String) (S D : ℕ) (std : ℝ) (hs : List ℕ)
    (p : MemorylessParams ℝ) (obsMap : String → Option (BatchedVec ℝ))
    (mem : M) (pa : P) (mk : K) (out : ActorCriticOutputV ℝ) (mm : Option M)
    (h : MemorylessModel.forward Real.tanh reluSem
        (mkMemorylessModel uuid S D std hs p) obsMap mem pa mk = some (out, mm)) :
    ∀ i j k, out.distributions.loc.data i j k ∈ Set.Icc (-1 : ℝ) 1 := by
  obtain ⟨obs, means, values, ho, ha, hc, hout, hmm⟩ := memForward_some_elim h
  have hactor : (mkMemorylessModel uuid S D std hs p).actor =
      (make_mlp_hidden .tanh p.actorW p.actorB 0 (S :: hs) ++
        [.linear ⟨32, D, p.actorFinalW, p.actorFinalB⟩]) ++ [.tanh] := by
    simp [mkMemorylessModel, List.append_assoc]
  rw [hactor] at ha
  obtain ⟨z, hz, hmeans⟩ := seqApplyBatched_tanh_last ha
  subst hmeans
  subst hout
  intro i j k
  exact real_tanh_mem_Icc (z.data i j k)

/-- Witness for C1: a concrete construction and a concrete forward call that
returns (shape checks pass: S = 2 matches the observation width and the last
hidden width is 32), to which the bound theorem applies. -/
theorem memoryless_actor_output_bounded_witness :
    ∃ (out : ActorCriticOutputV ℝ) (mm : Option Unit),
      MemorylessModel.forward Real.tanh (fun x => x)
          (mkMemorylessModel "g" 2 3 0 [32]
            ⟨fun _ _ _ => 0, fun _ _ => 0, fun _ _ => 0, fun _ => 0,
             fun _ _ _ => 0, fun _ _ => 0, fun _ _ => 0, fun _ => 0⟩)
          (fun u => if u = "g" then some ⟨0, 1, 2, fun i _ _ => i.elim0⟩ else none)
          () () () = some (out, mm) ∧
      ∀ i j k, out.distributions.loc.data i j k ∈ Set.Icc (-1 : ℝ) 1 :=
  ⟨_, _, rfl, memoryless_actor_output_bounded (fun x => x) "g" 2 3 0 [32]
    ⟨fun _ _ _ => 0, fun _ _ => 0, fun _ _ => 0, fun _ => 0,
     fun _ _ _ => 0, fun _ _ => 0, fun _ _ => 0, fun _ => 0⟩
    (fun u => if u = "g" then some ⟨0, 1, 2, fun i _ _ => i.elim0⟩ else none)
    () () () _ _ rfl⟩

theorem getLastD_of_getLast? {l : List ℕ} {x : ℕ} (h : l.getLast? = some x)
    (a : ℕ) : l.getLastD a = x := by
  rw [List.getLastD_eq_getLast?, h]
  rfl

theorem make_mlp_hidden_cons (nl : NetLayer α) (w : ℕ → ℕ → ℕ → α)
    (b : ℕ → ℕ → α) (k d0 d1 : ℕ) (rest : List ℕ) :
    make_mlp_hidden nl w b k (d0 :: d1 :: rest) =
      .linear ⟨d0, d1, w k, b k⟩ :: nl :: make_mlp_hidden nl w b (k + 1) (d1 :: rest) :=
  rfl

/-- On a batched tensor whose last width matches, a final `Linear` + `Tanh`
pair succeeds. -/
theorem seqApplyBatched_lin_tanh_some [CommRing α] (tanhSem reluSem : α → α)
    (l : LinearLayer α) (y : BatchedVec α) (h : y.s = l.inFeatures) :
    ∃ r, seqApplyBatched tanhSem reluSem [.linear l, .tanh] y = some r :=
  ⟨⟨y.b, y.t, l.outFeatures, fun i j k => tanhSem (linearApplyB l h (y.data i j) k)⟩,
    by simp only [seqApplyBatched, dif_pos h]⟩

theorem seqApplyBatched_lin_some [CommRing α] (tanhSem reluSem : α → α)
    (l : LinearLayer α) (y : BatchedVec α) (h : y.s = l.inFeatures) :
    ∃ r, seqApplyBatched tanhSem reluSem [.linear l] y = some r :=
  ⟨⟨y.b, y.t, l.outFeatures, fun i j => linearApplyB l h (y.data i j)⟩,
    by simp only [seqApplyBatched, dif_pos h]⟩

/-- The actor/critic of the vector model maps any observation to `none` when
the hidden widths end in some `L ≠ 32` (the final `Linear` hard-codes input
width 32). -/
theorem seqApplyBatched_mlp_final_none [CommRing α] (tanhSem reluSem : α → α)
    (w : ℕ → ℕ → ℕ → α) (bb : ℕ → ℕ → α) (S : ℕ) (lf : LinearLayer α)
    (tail : List (NetLayer α)) (d1 : ℕ) (rest : List ℕ) {L : ℕ}
    (hlast : (d1 :: rest).getLast? = some L) (hL : L ≠ lf.inFeatures)
    (obs : BatchedVec α) :
    seqApplyBatched tanhSem reluSem
      (make_mlp_hidden .tanh w bb 0 (S :: d1 :: rest) ++ .linear lf :: tail)
      obs = none := by
  rw [seqApplyBatched_append]
  by_cases hS : obs.s = S
  · obtain ⟨y, hy, hb, ht, hs⟩ :=
      seqApplyBatched_mlp tanhSem reluSem w bb (d1 :: rest) 0 S obs hS
    rw [hy]
    have hys : y.s = L := by
      rw [hs]; exact getLastD_of_getLast? hlast S
    simp only [Option.some_bind]
    exact seqApplyBatched_linear_fail (by rw [hys]; exact hL)
  · rw [make_mlp_hidden_cons, seqApplyBatched_linear_fail (by exact hS)]
    rfl

/-- An MLP head ending in the hard-coded `Linear(32, ·)` rejects every
embedding when the hidden widths end in some `L ≠ 32`. -/
theorem seqApply_head_none [CommRing α] (tanhSem reluSem : α → α)
    (w : ℕ → ℕ → ℕ → α) (bb : ℕ → ℕ → α) (S : ℕ) (lf : LinearLayer α)
    (d1 : ℕ) (rest : List ℕ) {L : ℕ}
    (hlast : (d1 :: rest).getLast? = some L) (hL : L ≠ lf.inFeatures)
    (emb : Tensor α) :
    seqApply tanhSem reluSem
      (make_mlp_hidden .tanh w bb 0 (S :: d1 :: rest) ++ [.linear lf]) emb = none := by
  rw [seqApply_append]
  cases emb with
  | t3 c hh ww d =>
      rw [make_mlp_hidden_cons]
      simp [seqApply, NetLayer.apply]
  | t1 xs =>
      by_cases hlen : xs.length = S
      · obtain ⟨ys, hy, hyl⟩ :=
          seqApply_mlp_t1 tanhSem reluSem w bb (d1 :: rest) 0 S xs hlen
        rw [hy]
        have hys : ys.length = L := by
          rw [hyl]; exact getLastD_of_getLast? hlast S
        simp only [Option.some_bind]
        exact seqApply_linear_fail_t1 (by rw [hys]; exact hL)
      · rw [make_mlp_hidden_cons, seqApply_linear_fail_t1 (by exact hlen)]
        rfl

/-- When the heads' hidden widths end in some `L ≠ 32`, every per-image
slice of the image model's forward pass fails. -/
theorem contrastivePerImage_none [CommRing α] (tanhSem reluSem floatCast : α → α)
    (uuid : String) (action_n : ℕ) (d1 : ℕ) (rest : List ℕ) {L : ℕ}
    (hlast : (d1 :: rest).getLast? = some L) (hL : L ≠ 32)
    (p : ContrastiveParams α) (o : T5 α) (n : Fin (o.b * o.t)) :
    contrastivePerImage tanhSem reluSem floatCast
      (mkContrastiveModel uuid action_n (d1 :: rest) p) o n = none := by
  unfold contrastivePerImage
  cases he : seqApply tanhSem reluSem
      (mkContrastiveModel uuid action_n (d1 :: rest) p).encoder
      (.t3 o.c o.h o.w (o.imageAt floatCast n)) with
  | none => rfl
  | some emb =>
      simp only [Option.some_bind]
      have hactor : (mkContrastiveModel uuid action_n (d1 :: rest) p).actor =
          make_mlp_hidden .tanh p.actorW p.actorB 0 (2048 :: d1 :: rest) ++
            [.linear ⟨32, action_n, p.actorFinalW, p.actorFinalB⟩] := rfl
      rw [hactor, seqApply_head_none tanhSem reluSem p.actorW p.actorB 2048
        ⟨32, action_n, p.actorFinalW, p.actorFinalB⟩ d1 rest hlast hL emb]
      rfl

/-- C9: in both models the final linear layers of the heads hard-code input
width 32.  Construction never inspects `mlp_hidden_dims` (the vector model
succeeds whenever its rank assertions pass, the image model always), but the
networks are dimensionally consistent only when the last hidden width is 32:
with last width `L ≠ 32` every forward call of the vector model fails
(whatever the observation) and every forward call of the image model on a
nonempty batch fails, while with the (default-style) last width 32 the
vector model's forward succeeds on matching observations. -/
theorem hardcoded_final_linear_width {M P K : Type} [CommRing α]
    (tanhSem reluSem floatCast : α → α) :
    (∀ (uuid : String) (box : GymBox) (obsSpace : String → Option (List ℕ))
        (std : α) (hs : List ℕ) (p : MemorylessParams α),
      (∃ sh, obsSpace uuid = some sh ∧ sh.length = 1) → box.shape.length = 1 →
        (memorylessInit uuid box obsSpace std hs p).isSome) ∧
    (∀ (uuid : String) (disc : GymDiscrete) (obsSpace : String → Option (List ℕ))
        (hs : List ℕ) (q : ContrastiveParams α),
      (contrastiveInit uuid disc obsSpace hs q).isSome) ∧
    (∀ (uuid : String) (S D : ℕ) (std : α) (hs : List ℕ) (L : ℕ)
        (p : MemorylessParams α) (obsMap : String → Option (BatchedVec α))
        (mem : M) (pa : P) (mk : K),
      hs.getLast? = some L → L ≠ 32 →
        (mkMemorylessModel uuid S D std hs p).forward tanhSem reluSem obsMap
          mem pa mk = none) ∧
    (∀ (uuid : String) (S D : ℕ) (std : α) (hs : List ℕ)
        (p : MemorylessParams α) (obsMap : String → Option (BatchedVec α))
        (obs : BatchedVec α) (mem : M) (pa : P) (mk : K),
      hs.getLast? = some 32 → obsMap uuid = some obs → obs.s = S →
        ((mkMemorylessModel uuid S D std hs p).forward tanhSem reluSem obsMap
          mem pa mk).isSome) ∧
    (∀ (uuid : String) (action_n : ℕ) (hs : List ℕ) (L : ℕ)
        (q : ContrastiveParams α) (obsMapI : String → Option (T5 α)) (o : T5 α)
        (mem : M) (pa : P) (mk : K),
      hs.getLast? = some L → L ≠ 32 → obsMapI uuid = some o → 0 < o.b * o.t →
        (mkContrastiveModel uuid action_n hs q).forward tanhSem reluSem
          floatCast obsMapI mem pa mk = none) := by
  refine ⟨?_, ?_, ?_, ?_, ?_⟩
  · rintro uuid box obsSpace std hs p ⟨sh, hsh, hlen⟩ hbox
    unfold memorylessInit
    rw [hsh]
    dsimp only
    rw [if_pos ⟨hlen, hbox⟩]
    rfl
  · intro uuid disc obsSpace hs q
    rfl
  · intro uuid S D std hs L p obsMap mem pa mk hlast hL
    cases hs with
    | nil => simp at hlast
    | cons d1 rest =>
        unfold MemorylessModel.forward
        cases ho : obsMap (mkMemorylessModel uuid S D std (d1 :: rest) p).input_uuid with
        | none => rfl
        | some obs =>
            dsimp only
            have ha : seqApplyBatched tanhSem reluSem
                (mkMemorylessModel uuid S D std (d1 :: rest) p).actor obs = none := by
              have hact : (mkMemorylessModel uuid S D std (d1 :: rest) p).actor =
                  make_mlp_hidden .tanh p.actorW p.actorB 0 (S :: d1 :: rest) ++
                    .linear ⟨32, D, p.actorFinalW, p.actorFinalB⟩ :: [.tanh] := rfl
              rw [hact]
              exact seqApplyBatched_mlp_final_none tanhSem reluSem p.actorW
                p.actorB S _ _ d1 rest hlast hL obs
            rw [ha]
  · intro uuid S D std hs p obsMap obs mem pa mk hlast ho hS
    obtain ⟨y, hy, hb, ht, hsy⟩ :=
      seqApplyBatched_mlp tanhSem reluSem p.actorW p.actorB hs 0 S obs hS
    obtain ⟨y2, hy2, hb2, ht2, hsy2⟩ :=
      seqApplyBatched_mlp tanhSem reluSem p.criticW p.criticB hs 0 S obs hS
    have hys : y.s = 32 := by rw [hsy]; exact getLastD_of_getLast? hlast S
    have hys2 : y2.s = 32 := by rw [hsy2]; exact getLastD_of_getLast? hlast S
    obtain ⟨means, hmeans⟩ := seqApplyBatched_lin_tanh_some tanhSem reluSem
      ⟨32, D, p.actorFinalW, p.actorFinalB⟩ y hys
    obtain ⟨values, hvalues⟩ := seqApplyBatched_lin_some tanhSem reluSem
      ⟨32, 1, p.criticFinalW, p.criticFinalB⟩ y2 hys2
    have ha : seqApplyBatched tanhSem reluSem
        (mkMemorylessModel uuid S D std hs p).actor obs = some means := by
      have hact : (mkMemorylessModel uuid S D std hs p).actor =
          make_mlp_hidden .tanh p.actorW p.actorB 0 (S :: hs) ++
            [.linear ⟨32, D, p.actorFinalW, p.actorFinalB⟩, .tanh] := rfl
      rw [hact, seqApplyBatched_append, hy]
      simpa using hmeans
    have hc : seqApplyBatched tanhSem reluSem
        (mkMemorylessModel uuid S D std hs p).critic obs = some values := by
      have hcrit : (mkMemorylessModel uuid S D std hs p).critic =
          make_mlp_hidden .tanh p.criticW p.criticB 0 (S :: hs) ++
            [.linear ⟨32, 1, p.criticFinalW, p.criticFinalB⟩] := rfl
      rw [hcrit, seqApplyBatched_append, hy2]
      simpa using hvalues
    rw [memForward_some_intro ho ha hc]
    rfl
  · intro uuid action_n hs L q obsMapI o mem pa mk hlast hL ho hpos
    cases hs with
    | nil => simp at hlast
    | cons d1 rest =>
        unfold ContrastiveModel.forward
        have ho' : obsMapI (mkContrastiveModel uuid action_n (d1 :: rest) q).input_uuid =
            some o := ho
        rw [ho']
        dsimp only
        rw [dif_neg]
        intro hall
        have h0 := hall ⟨0, hpos⟩
        rw [contrastivePerImage_none tanhSem reluSem floatCast uuid action_n
          d1 rest hlast hL q o ⟨0, hpos⟩] at h0
        simp at h0

/-- Witness for C9: concrete instantiations of each conjunct over `ℚ` —
construction succeeds with hidden widths `[5]`, yet the vector forward on a
matching observation is `none`; with widths `[32]` the same forward returns;
and the image forward on a nonempty batch with widths `[5]` is `none`. -/
theorem hardcoded_final_linear_width_witness :
    (memorylessInit "g" ⟨[3]⟩ (fun u => if u = "g" then some [2] else none)
      (0 : ℚ) [5] qMemParams).isSome ∧
    (contrastiveInit "g" ⟨4⟩ (fun _ => none) [5] qContParams).isSome ∧
    MemorylessModel.forward (α := ℚ) (fun x => x) (fun x => x)
      (mkMemorylessModel "g" 2 3 0 [5] qMemParams) qObsMapV () () () = none ∧
    (MemorylessModel.forward (α := ℚ) (fun x => x) (fun x => x)
      (mkMemorylessModel "g" 2 3 0 [32] qMemParams) qObsMapV () () ()).isSome ∧
    ContrastiveModel.forward (α := ℚ) (fun x => x) (fun x => x) (fun x => x)
      (mkContrastiveModel "g" 4 [5] qContParams)
      (fun u => if u = "g" then some ⟨1, 1, 7, 7, 3, fun _ _ _ _ _ => 0⟩ else none)
      () () () = none := by
  have h := hardcoded_final_linear_width (M := Unit) (P := Unit) (K := Unit)
    (α := ℚ) (fun x => x) (fun x => x) (fun x => x)
  refine ⟨?_, ?_, ?_, ?_, ?_⟩
  · exact h.1 "g" ⟨[3]⟩ (fun u => if u = "g" then some [2] else none) 0 [5]
      qMemParams ⟨[2], rfl, rfl⟩ rfl
  · exact h.2.1 "g" ⟨4⟩ (fun _ => none) [5] qContParams
  · exact h.2.2.1 "g" 2 3 0 [5] 5 qMemParams qObsMapV () () () rfl (by decide)
  · exact h.2.2.2.1 "g" 2 3 0 [32] qMemParams qObsMapV ⟨1, 1, 2, fun _ _ _ => 1⟩
      () () () rfl rfl rfl
  · exact h.2.2.2.2 "g" 4 [5] 5 qContParams
      (fun u => if u = "g" then some ⟨1, 1, 7, 7, 3, fun _ _ _ _ _ => 0⟩ else none)
      ⟨1, 1, 7, 7, 3, fun _ _ _ _ _ => 0⟩ () () () rfl (by decide) rfl (by decide)

/-- An MLP head whose widths chain correctly into its final `Linear` accepts
any rank-1 input of the right length. -/
theorem seqApply_mlp_final_some [CommRing α] (tanhSem reluSem : α → α)
    (w : ℕ → ℕ → ℕ → α) (bb : ℕ → ℕ → α) (S : ℕ) (ds : List ℕ)
    (lf : LinearLayer α) (xs : List α) (hlen : xs.length = S)
    (hfit : ds.getLastD S = lf.inFeatures) :
    ∃ zs, seqApply tanhSem reluSem
        (make_mlp_hidden .tanh w bb 0 (S :: ds) ++ [.linear lf]) (.t1 xs) =
          some (.t1 zs) ∧ zs.length = lf.outFeatures := by
  obtain ⟨ys, hy, hylen⟩ := seqApply_mlp_t1 tanhSem reluSem w bb ds 0 S xs hlen
  refine ⟨linearApplyL lf ys, ?_, linearApplyL_length lf ys⟩
  rw [seqApply_append, hy]
  simp only [Option.some_bind, seqApply, NetLayer.apply]
  rw [if_pos (by rw [hylen, hfit])]
  rfl

theorem contrastivePerImage_some_intro [CommRing α]
    {tanhSem reluSem floatCast : α → α} {m : ContrastiveModel α} {o : T5 α}
    {n : Fin (o.b * o.t)} {emb : Tensor α} {axs cxs : List α}
    (he : seqApply tanhSem reluSem m.encoder
      (.t3 o.c o.h o.w (o.imageAt floatCast n)) = some emb)
    (ha : seqApply tanhSem reluSem m.actor emb = some (.t1 axs))
    (hc : seqApply tanhSem reluSem m.critic emb = some (.t1 cxs)) :
    contrastivePerImage tanhSem reluSem floatCast m o n = some (axs, cxs) := by
  unfold contrastivePerImage
  rw [he]
  simp only [Option.some_bind]
  rw [ha]
  simp only [Option.some_bind]
  rw [hc]
  simp only [Option.some_bind]

theorem contrastivePerImage_none_of_encoder [CommRing α]
    {tanhSem reluSem floatCast : α → α} {m : ContrastiveModel α} {o : T5 α}
    {n : Fin (o.b * o.t)}
    (he : seqApply tanhSem reluSem m.encoder
      (.t3 o.c o.h o.w (o.imageAt floatCast n)) = none) :
    contrastivePerImage tanhSem reluSem floatCast m o n = none := by
  unfold contrastivePerImage
  rw [he]
  rfl

/-- Success of one per-image slice of the image model's forward pass (with
the default hidden widths `[64, 32]`) is equivalent to the encoder shape
conditions: 3 input channels, spatial extents admitting both convolutions,
and a flattened convolutional output of exactly `2592 = 32·9·9` features to
feed the hard-coded `Linear(2592, 2048)`. -/
theorem contrastivePerImage_isSome_iff [CommRing α]
    (tanhSem reluSem floatCast : α → α) (uuid : String) (action_n : ℕ)
    (p : ContrastiveParams α) (o : T5 α) (n : Fin (o.b * o.t)) :
    (contrastivePerImage tanhSem reluSem floatCast
        (mkContrastiveModel uuid action_n [64, 32] p) o n).isSome ↔
      o.c = 3 ∧ 8 ≤ o.h ∧ 8 ≤ o.w ∧
        4 ≤ convOutDim o.h 8 4 ∧ 4 ≤ convOutDim o.w 8 4 ∧
        32 * (convOutDim (convOutDim o.h 8 4) 4 2 *
          convOutDim (convOutDim o.w 8 4) 4 2) = 2592 := by
  have henc : (mkContrastiveModel uuid action_n [64, 32] p).encoder =
      [.conv2d ⟨3, 16, 8, 4, p.conv1W, p.conv1B⟩, .relu,
       .conv2d ⟨16, 32, 4, 2, p.conv2W, p.conv2B⟩, .relu, .flatten,
       .linear ⟨2592, 2048, p.encLinW, p.encLinB⟩, .relu] := rfl
  by_cases hc1 : o.c = 3 ∧ 8 ≤ o.h ∧ 8 ≤ o.w
  · by_cases hc2 : 4 ≤ convOutDim o.h 8 4 ∧ 4 ≤ convOutDim o.w 8 4
    · by_cases hflat : 32 * (convOutDim (convOutDim o.h 8 4) 4 2 *
          convOutDim (convOutDim o.w 8 4) 4 2) = 2592
      · have hEnc : ∃ ys : List α, seqApply tanhSem reluSem
            (mkContrastiveModel uuid action_n [64, 32] p).encoder
            (.t3 o.c o.h o.w (o.imageAt floatCast n)) =
              some (.t1 ((linearApplyL ⟨2592, 2048, p.encLinW, p.encLinB⟩
                ys).map reluSem)) := by
          rw [henc]
          simp only [seqApply, NetLayer.apply]
          rw [conv2dApply, dif_pos hc1]
          simp only [Option.some_bind]
          rw [conv2dApply, dif_pos ⟨rfl, hc2.1, hc2.2⟩]
          simp only [Option.some_bind]
          rw [if_pos (by rw [flattenT3_length]; exact hflat)]
          simp only [Option.some_bind]
          exact ⟨_, rfl⟩
        obtain ⟨ys, hEnc⟩ := hEnc
        have hlen : ((linearApplyL ⟨2592, 2048, p.encLinW, p.encLinB⟩
            ys).map reluSem).length = 2048 := by
          rw [List.length_map, linearApplyL_length]
        obtain ⟨zs, hz, hzl⟩ := seqApply_mlp_final_some tanhSem reluSem
          p.actorW p.actorB 2048 [64, 32]
          ⟨32, action_n, p.actorFinalW, p.actorFinalB⟩ _ hlen rfl
        obtain ⟨zs2, hz2, hzl2⟩ := seqApply_mlp_final_some tanhSem reluSem
          p.criticW p.criticB 2048 [64, 32]
          ⟨32, 1, p.criticFinalW, p.criticFinalB⟩ _ hlen rfl
        rw [contrastivePerImage_some_intro hEnc hz hz2]
        simp only [Option.isSome_some, true_iff]
        exact ⟨hc1.1, hc1.2.1, hc1.2.2, hc2.1, hc2.2, hflat⟩
      · have hEnc : seqApply tanhSem reluSem
            (mkContrastiveModel uuid action_n [64, 32] p).encoder
            (.t3 o.c o.h o.w (o.imageAt floatCast n)) = none := by
          rw [henc]
          simp only [seqApply, NetLayer.apply]
          rw [conv2dApply, dif_pos hc1]
          simp only [Option.some_bind]
          rw [conv2dApply, dif_pos ⟨rfl, hc2.1, hc2.2⟩]
          simp only [Option.some_bind]
          rw [if_neg (by rw [flattenT3_length]; exact hflat)]
          rfl
        rw [contrastivePerImage_none_of_encoder hEnc]
        simp only [Option.isSome_none, Bool.false_eq_true, false_iff]
        intro hcon
        exact hflat hcon.2.2.2.2.2
    · have hEnc : seqApply tanhSem reluSem
          (mkContrastiveModel uuid action_n [64, 32] p).encoder
          (.t3 o.c o.h o.w (o.imageAt floatCast n)) = none := by
        rw [henc]
        simp only [seqApply, NetLayer.apply]
        rw [conv2dApply, dif_pos hc1]
        simp only [Option.some_bind]
        rw [conv2dApply, dif_neg (fun hh => hc2 ⟨hh.2.1, hh.2.2⟩)]
        rfl
      rw [contrastivePerImage_none_of_encoder hEnc]
      simp only [Option.isSome_none, Bool.false_eq_true, false_iff]
      intro hcon
      exact hc2 ⟨hcon.2.2.2.1, hcon.2.2.2.2.1⟩
  · have hEnc : seqApply tanhSem reluSem
        (mkContrastiveModel uuid action_n [64, 32] p).encoder
        (.t3 o.c o.h o.w (o.imageAt floatCast n)) = none := by
      rw [henc]
      simp only [seqApply, NetLayer.apply]
      rw [conv2dApply, dif_neg hc1]
      rfl
    rw [contrastivePerImage_none_of_encoder hEnc]
    simp only [Option.isSome_none, Bool.false_eq_true, false_iff]
    intro hcon
    exact hc1 ⟨hcon.1, hcon.2.1, hcon.2.2.1⟩

/-- C10: the image model performs no validation at construction, and (for
the default hidden widths) a forward call on a nonempty `(b, t, h, w, c)`
batch succeeds exactly when the channel count is 3, both convolutions fit,
and the flattened convolutional output is exactly 2592 features — the input
width hard-coded in the encoder's `Linear(2592, 2048)`; in particular every
square image side from 84 to 87 satisfies the condition.  (The input is cast
to float — `floatCast` — before encoding; the success condition is the same
for every cast.) -/
theorem contrastive_forward_success_iff {M P K : Type} [CommRing α]
    (tanhSem reluSem floatCast : α → α) :
    (∀ (uuid : String) (action_n : ℕ) (p : ContrastiveParams α)
        (obsMapI : String → Option (T5 α)) (o : T5 α) (mem : M) (pa : P) (mk : K),
      obsMapI uuid = some o → 0 < o.b * o.t →
        (((mkContrastiveModel uuid action_n [64, 32] p).forward tanhSem reluSem
            floatCast obsMapI mem pa mk).isSome ↔
          o.c = 3 ∧ 8 ≤ o.h ∧ 8 ≤ o.w ∧ 4 ≤ convOutDim o.h 8 4 ∧
            4 ≤ convOutDim o.w 8 4 ∧
            32 * (convOutDim (convOutDim o.h 8 4) 4 2 *
              convOutDim (convOutDim o.w 8 4) 4 2) = 2592)) ∧
    (∀ (uuid : String) (disc : GymDiscrete)
        (obsSpace : String → Option (List ℕ)) (hs : List ℕ)
        (q : ContrastiveParams α),
      (contrastiveInit uuid disc obsSpace hs q).isSome) ∧
    (∀ hh ww : ℕ, 84 ≤ hh → hh ≤ 87 → 84 ≤ ww → ww ≤ 87 →
      8 ≤ hh ∧ 8 ≤ ww ∧ 4 ≤ convOutDim hh 8 4 ∧ 4 ≤ convOutDim ww 8 4 ∧
        32 * (convOutDim (convOutDim hh 8 4) 4 2 *
          convOutDim (convOutDim ww 8 4) 4 2) = 2592) := by
  refine ⟨?_, ?_, ?_⟩
  · intro uuid action_n p obsMapI o mem pa mk ho hpos
    unfold ContrastiveModel.forward
    have ho' : obsMapI (mkContrastiveModel uuid action_n [64, 32] p).input_uuid =
        some o := ho
    rw [ho']
    dsimp only
    by_cases hall : ∀ n : Fin (o.b * o.t),
        (contrastivePerImage tanhSem reluSem floatCast
          (mkContrastiveModel uuid action_n [64, 32] p) o n).isSome
    · rw [dif_pos hall]
      simp only [Option.isSome_some, true_iff]
      exact (contrastivePerImage_isSome_iff tanhSem reluSem floatCast uuid
        action_n p o ⟨0, hpos⟩).1 (hall ⟨0, hpos⟩)
    · rw [dif_neg hall]
      simp only [Option.isSome_none, Bool.false_eq_true, false_iff]
      intro hcon
      exact hall fun n => (contrastivePerImage_isSome_iff tanhSem reluSem
        floatCast uuid action_n p o n).2 hcon
  · intro uuid disc obsSpace hs q
    rfl
  · intro hh ww h1 h2 h3 h4
    have e1 : convOutDim (convOutDim hh 8 4) 4 2 = 9 := by
      simp only [convOutDim]; omega
    have e2 : convOutDim (convOutDim ww 8 4) 4 2 = 9 := by
      simp only [convOutDim]; omega
    refine ⟨by omega, by omega, ?_, ?_, ?_⟩
    · simp only [convOutDim]; omega
    · simp only [convOutDim]; omega
    · rw [e1, e2]

/-- Witness for C10: a concrete 84×84 observation on a 1×1 batch — the
hypotheses hold by `rfl`/`decide`, the success equivalence follows, and the
84–87 range conjunct is applied at 84×84. -/
theorem contrastive_forward_success_iff_witness :
    ((ContrastiveModel.forward (fun x => x) (fun x => x) (fun x => x)
        (mkContrastiveModel "g" 4 [64, 32] qContParams)
        (fun u => if u = "g" then some ⟨1, 1, 84, 84, 3, fun _ _ _ _ _ => (0 : ℚ)⟩
          else none) () () ()).isSome ↔
      3 = 3 ∧ 8 ≤ 84 ∧ 8 ≤ 84 ∧ 4 ≤ convOutDim 84 8 4 ∧ 4 ≤ convOutDim 84 8 4 ∧
        32 * (convOutDim (convOutDim 84 8 4) 4 2 *
          convOutDim (convOutDim 84 8 4) 4 2) = 2592) ∧
    (8 ≤ 84 ∧ 8 ≤ 84 ∧ 4 ≤ convOutDim 84 8 4 ∧ 4 ≤ convOutDim 84 8 4 ∧
      32 * (convOutDim (convOutDim 84 8 4) 4 2 *
        convOutDim (convOutDim 84 8 4) 4 2) = 2592) := by
  have h := contrastive_forward_success_iff (M := Unit) (P := Unit) (K := Unit)
    (α := ℚ) (fun x => x) (fun x => x) (fun x => x)
  exact ⟨h.1 "g" 4 qContParams
      (fun u => if u = "g" then some ⟨1, 1, 84, 84, 3, fun _ _ _ _ _ => (0 : ℚ)⟩
        else none) ⟨1, 1, 84, 84, 3, fun _ _ _ _ _ => (0 : ℚ)⟩ () () () rfl
      (by decide),
    h.2.2 84 84 (by decide) (by decide) (by decide) (by decide)⟩

/-- C2 counterexample: a concrete `(1, 1, 7, 7, 3)` observation — a
perfectly well-formed 5-D channel-last batch — on which the image model's
forward pass fails (the first convolution's 8×8 kernel does not fit a 7×7
image), so no logits of shape `(1, 1, K)` are returned: the claim's
unconditional shape guarantee fails. -/
theorem image_forward_shape_counterexample :
    ContrastiveModel.forward (fun x => x) (fun x => x) (fun x => x) qModelC
      (fun u => if u = "g" then some ⟨1, 1, 7, 7, 3, fun _ _ _ _ _ => (0 : ℚ)⟩
        else none) () () () = (none : Option (ActorCriticOutputI ℚ × Option Unit)) := by
  rfl

/-- C2 (amended): whenever the image model's forward pass returns — the
observation's spatial size must then feed the hard-coded encoder widths —
the outer-batch and time-step dimensions are preserved: logits have shape
`(b, t, K)` with `K` the discrete action count, and values have shape
`(b, t, 1)`. -/
theorem image_forward_shape_amended {M P K : Type} [CommRing α]
    (tanhSem reluSem floatCast : α → α) (uuid : String) (action_n : ℕ)
    (hs : List ℕ) (p : ContrastiveParams α)
    (obsMapI : String → Option (T5 α)) (o : T5 α) (mem : M) (pa : P) (mk : K)
    (out : ActorCriticOutputI α) (mm : Option M)
    (ho : obsMapI uuid = some o)
    (h : (mkContrastiveModel uuid action_n hs p).forward tanhSem reluSem
      floatCast obsMapI mem pa mk = some (out, mm)) :
    out.distributions.logits.b = o.b ∧ out.distributions.logits.t = o.t ∧
      (∀ i j, (out.distributions.logits.data i j).length = action_n) ∧
      out.values.b = o.b ∧ out.values.t = o.t ∧
      (∀ i j, (out.values.data i j).length = 1) := by
  obtain ⟨o', ho', hall, hout, hmm⟩ := contForward_some_elim h
  have hoo : o' = o := by
    have : some o' = some o := by rw [← ho', ← ho]; rfl
    exact Option.some_inj.mp this
  subst hoo
  subst hout
  refine ⟨rfl, rfl, ?_, rfl, rfl, ?_⟩
  · intro i j
    obtain ⟨pr, hpr⟩ := Option.isSome_iff_exists.mp
      (hall ⟨i.val * o'.t + j.val, unfold_idx_lt i j⟩)
    obtain ⟨xs, ys⟩ := pr
    obtain ⟨emb, he, ha, hc⟩ := contrastivePerImage_some_elim hpr
    have hactor : (mkContrastiveModel uuid action_n hs p).actor =
        make_mlp_hidden .tanh p.actorW p.actorB 0 (2048 :: hs) ++
          [.linear ⟨32, action_n, p.actorFinalW, p.actorFinalB⟩] := rfl
    rw [hactor] at ha
    obtain ⟨xs', hxs', hlen⟩ := seqApply_linear_last ha
    have hx : xs = xs' := by
      injection hxs'
    simp only [BatchedRows.data]
    rw [hpr]
    simp only [Option.map_some', Option.getD_some]
    rw [hx]
    exact hlen
  · intro i j
    obtain ⟨pr, hpr⟩ := Option.isSome_iff_exists.mp
      (hall ⟨i.val * o'.t + j.val, unfold_idx_lt i j⟩)
    obtain ⟨xs, ys⟩ := pr
    obtain ⟨emb, he, ha, hc⟩ := contrastivePerImage_some_elim hpr
    have hcritic : (mkContrastiveModel uuid action_n hs p).critic =
        make_mlp_hidden .tanh p.criticW p.criticB 0 (2048 :: hs) ++
          [.linear ⟨32, 1, p.criticFinalW, p.criticFinalB⟩] := rfl
    rw [hcritic] at hc
    obtain ⟨ys', hys', hlen⟩ := seqApply_linear_last hc
    have hy : ys = ys' := by
      injection hys'
    simp only [BatchedRows.data]
    rw [hpr]
    simp only [Option.map_some', Option.getD_some]
    rw [hy]
    exact hlen

/-- Witness for C2 (amended): a concrete observation map and a forward call
that returns (an empty outer batch keeps every shape check on the layer
metadata satisfied), to which the shape-preservation theorem applies. -/
theorem image_forward_shape_amended_witness :
    ∃ (out : ActorCriticOutputI ℚ) (mm : Option Unit),
      ContrastiveModel.forward (fun x => x) (fun x => x) (fun x => x)
          (mkContrastiveModel "g" 4 [64, 32] qContParams)
          (fun u => if u = "g" then some ⟨0, 1, 5, 5, 3, fun i _ _ _ _ => i.elim0⟩
            else none) () () () = some (out, mm) ∧
        (out.distributions.logits.b = 0 ∧ out.distributions.logits.t = 1 ∧
          (∀ i j, (out.distributions.logits.data i j).length = 4) ∧
          out.values.b = 0 ∧ out.values.t = 1 ∧
          (∀ i j, (out.values.data i j).length = 1)) :=
  ⟨_, _, rfl, image_forward_shape_amended (fun x => x) (fun x => x) (fun x => x)
    "g" 4 [64, 32] qContParams
    (fun u => if u = "g" then some ⟨0, 1, 5, 5, 3, fun i _ _ _ _ => i.elim0⟩
      else none) ⟨0, 1, 5, 5, 3, fun i _ _ _ _ => i.elim0⟩ () () () _ _ rfl rfl⟩
